import Mathlib

/-!
Verification of the folder-analyzer media orchestration engine.

This file gives a shallow embedding of the two core source files of the
repository — `image_analyzer/core.py` (the single-item analyzer) and
`process_folder/folder_processor.py` (the batch driver) — and proves or
refutes the stated properties of the design document against it.

Modelling conventions:
* Python strings are Lean `String` (lists of characters under the hood);
  Python's left-to-right non-overlapping `str.replace` / `str.count` are
  embedded explicitly on `List Char`.
* JSON values are the inductive `JsonVal`; Python truthiness, `dict.get`
  and subscription (`x[k]`, which raises on non-dicts / missing keys) are
  embedded as explicit `Except`-valued operations.
* The external world of a batch run (directory listings, subprocess
  outcomes, produced JSON artifacts, wall-clock timings, temp dirs) is a
  record of oracle functions `PFWorld`; POSIX glob semantics are used
  (case-sensitive matching, `*` does not match a leading dot).
* Exceptions are `Except String`; a caught exception turns into the same
  error-shaped data the Python handlers build.
-/

namespace FolderAnalyzer

/-! ## Strings: Python `str.replace` / `str.count` on `List Char` -/

/-- `startsWithL p s` : `p` is a literal leading segment of `s`. -/
def startsWithL : List Char → List Char → Bool
  | [], _ => true
  | _ :: _, [] => false
  | a :: as, b :: bs => decide (a = b) && startsWithL as bs

theorem startsWithL_iff (p : List Char) : ∀ s : List Char,
    startsWithL p s = true ↔ ∃ t, s = p ++ t := by
  induction p with
  | nil =>
    intro s
    simp [startsWithL]
  | cons a as ih =>
    intro s
    cases s with
    | nil =>
      simp [startsWithL]
    | cons b bs =>
      simp only [startsWithL, Bool.and_eq_true, decide_eq_true_eq, ih bs]
      constructor
      · rintro ⟨rfl, t, rfl⟩
        exact ⟨t, rfl⟩
      · rintro ⟨t, ht⟩
        cases ht
        exact ⟨rfl, t, rfl⟩

/-- Fuelled engine of Python `s.replace(pat, repl)`: left-to-right,
non-overlapping.  With fuel at least `s.length` (as the wrapper
`replaceAllL` supplies) the fuel never runs out. -/
def replaceAllF (pat repl : List Char) : Nat → List Char → List Char
  | 0, s => s
  | n + 1, s =>
    if pat ≠ [] ∧ startsWithL pat s = true then
      repl ++ replaceAllF pat repl n (s.drop pat.length)
    else
      match s with
      | [] => []
      | c :: cs => c :: replaceAllF pat repl n cs

/-- Python `s.replace(pat, repl)` (`pat ≠ ""`). -/
def replaceAllL (pat repl s : List Char) : List Char :=
  replaceAllF pat repl s.length s

/-- Fuelled engine of Python `s.count(pat)`: the number of occurrences
that `s.replace(pat, ·)` rewrites, scanning left to right without
overlap. -/
def countOccsF (pat : List Char) : Nat → List Char → Nat
  | 0, _ => 0
  | n + 1, s =>
    if pat ≠ [] ∧ startsWithL pat s = true then
      1 + countOccsF pat n (s.drop pat.length)
    else
      match s with
      | [] => 0
      | _ :: cs => countOccsF pat n cs

/-- Python `s.count(pat)` (`pat ≠ ""`). -/
def countOccsL (pat s : List Char) : Nat :=
  countOccsF pat s.length s

theorem guard_nil_false (pat : List Char) :
    ¬ (pat ≠ [] ∧ startsWithL pat ([] : List Char) = true) := by
  rintro ⟨hne, hsw⟩
  obtain ⟨t, ht⟩ := (startsWithL_iff pat []).mp hsw
  have := congrArg List.length ht
  simp at this
  exact hne (List.eq_nil_of_length_eq_zero (by omega))

theorem countOccsF_nil (pat : List Char) : ∀ n, countOccsF pat n [] = 0 := by
  intro n
  cases n with
  | zero => rfl
  | succ n =>
    simp only [countOccsF]
    rw [if_neg (guard_nil_false pat)]

theorem replaceAllF_nil (pat repl : List Char) :
    ∀ n, replaceAllF pat repl n [] = [] := by
  intro n
  cases n with
  | zero => rfl
  | succ n =>
    simp only [replaceAllF]
    rw [if_neg (guard_nil_false pat)]

theorem drop_of_guard {pat s : List Char}
    (hg : pat ≠ [] ∧ startsWithL pat s = true) :
    ∃ t, s = pat ++ t ∧ s.drop pat.length = t ∧
      s.length = pat.length + t.length ∧ 0 < pat.length := by
  obtain ⟨t, rfl⟩ := (startsWithL_iff pat s).mp hg.2
  exact ⟨t, rfl, by simp [List.drop_append_eq_append_drop],
    by simp, List.length_pos.mpr hg.1⟩

theorem countOccsF_fuel (pat : List Char) :
    ∀ n m (s : List Char), s.length ≤ n → s.length ≤ m →
      countOccsF pat n s = countOccsF pat m s := by
  intro n
  induction n with
  | zero =>
    intro m s hn _
    have : s = [] := List.eq_nil_of_length_eq_zero (Nat.le_zero.mp hn)
    subst this
    rw [countOccsF_nil, countOccsF_nil]
  | succ n ih =>
    intro m s hn hm
    cases m with
    | zero =>
      have : s = [] := List.eq_nil_of_length_eq_zero (Nat.le_zero.mp hm)
      subst this
      rw [countOccsF_nil, countOccsF_nil]
    | succ m =>
      simp only [countOccsF]
      by_cases hg : pat ≠ [] ∧ startsWithL pat s = true
      · rw [if_pos hg, if_pos hg]
        obtain ⟨t, rfl, hdrop, hlen, hp⟩ := drop_of_guard hg
        rw [hdrop]
        rw [ih m t (by omega) (by omega)]
      · rw [if_neg hg, if_neg hg]
        cases s with
        | nil => rfl
        | cons c cs =>
          simp only
          exact ih m cs (by simp at hn; omega) (by simp at hm; omega)

theorem replaceAllF_fuel (pat repl : List Char) :
    ∀ n m (s : List Char), s.length ≤ n → s.length ≤ m →
      replaceAllF pat repl n s = replaceAllF pat repl m s := by
  intro n
  induction n with
  | zero =>
    intro m s hn _
    have : s = [] := List.eq_nil_of_length_eq_zero (Nat.le_zero.mp hn)
    subst this
    rw [replaceAllF_nil, replaceAllF_nil]
  | succ n ih =>
    intro m s hn hm
    cases m with
    | zero =>
      have : s = [] := List.eq_nil_of_length_eq_zero (Nat.le_zero.mp hm)
      subst this
      rw [replaceAllF_nil, replaceAllF_nil]
    | succ m =>
      simp only [replaceAllF]
      by_cases hg : pat ≠ [] ∧ startsWithL pat s = true
      · rw [if_pos hg, if_pos hg]
        obtain ⟨t, rfl, hdrop, hlen, hp⟩ := drop_of_guard hg
        rw [hdrop]
        rw [ih m t (by omega) (by omega)]
      · rw [if_neg hg, if_neg hg]
        cases s with
        | nil => rfl
        | cons c cs =>
          simp only
          rw [ih m cs (by simp at hn; omega) (by simp at hm; omega)]

theorem countOccsL_guard {pat s : List Char}
    (hg : pat ≠ [] ∧ startsWithL pat s = true) :
    countOccsL pat s = 1 + countOccsL pat (s.drop pat.length) := by
  obtain ⟨t, rfl, hdrop, hlen, hp⟩ := drop_of_guard hg
  rw [countOccsL, countOccsL, hdrop]
  have h1 : (pat ++ t).length = (pat.length + t.length - 1) + 1 := by
    simp; omega
  rw [h1]
  simp only [countOccsF]
  rw [if_pos hg, hdrop,
    countOccsF_fuel pat (pat.length + t.length - 1) t.length t (by omega) le_rfl]

theorem countOccsL_cons {pat : List Char} {c : Char} {cs : List Char}
    (hg : ¬ (pat ≠ [] ∧ startsWithL pat (c :: cs) = true)) :
    countOccsL pat (c :: cs) = countOccsL pat cs := by
  rw [countOccsL, countOccsL, List.length_cons]
  simp only [countOccsF]
  rw [if_neg hg]

theorem replaceAllL_guard {pat repl s : List Char}
    (hg : pat ≠ [] ∧ startsWithL pat s = true) :
    replaceAllL pat repl s = repl ++ replaceAllL pat repl (s.drop pat.length) := by
  obtain ⟨t, rfl, hdrop, hlen, hp⟩ := drop_of_guard hg
  rw [replaceAllL, replaceAllL, hdrop]
  have h1 : (pat ++ t).length = (pat.length + t.length - 1) + 1 := by
    simp; omega
  rw [h1]
  simp only [replaceAllF]
  rw [if_pos hg, hdrop,
    replaceAllF_fuel pat repl (pat.length + t.length - 1) t.length t (by omega) le_rfl]

theorem replaceAllL_cons {pat repl : List Char} {c : Char} {cs : List Char}
    (hg : ¬ (pat ≠ [] ∧ startsWithL pat (c :: cs) = true)) :
    replaceAllL pat repl (c :: cs) = c :: replaceAllL pat repl cs := by
  rw [replaceAllL, replaceAllL, List.length_cons]
  simp only [replaceAllF]
  rw [if_neg hg]

theorem replaceAllL_of_countOccs_zero (pat repl : List Char) :
    ∀ n (s : List Char), s.length ≤ n → countOccsL pat s = 0 →
      replaceAllL pat repl s = s := by
  intro n
  induction n with
  | zero =>
    intro s hs _
    have : s = [] := List.eq_nil_of_length_eq_zero (Nat.le_zero.mp hs)
    subst this
    rfl
  | succ n ih =>
    intro s hs hc
    by_cases hg : pat ≠ [] ∧ startsWithL pat s = true
    · rw [countOccsL_guard hg] at hc
      omega
    · cases s with
      | nil => rfl
      | cons c cs =>
        rw [countOccsL_cons hg] at hc
        rw [replaceAllL_cons hg, ih cs (by simp at hs; omega) hc]

theorem countOccs_one_decomp (pat repl : List Char) :
    ∀ n (s : List Char), s.length ≤ n → countOccsL pat s = 1 →
      ∃ a b, s = a ++ pat ++ b ∧ countOccsL pat b = 0 ∧
        replaceAllL pat repl s = a ++ repl ++ b := by
  intro n
  induction n with
  | zero =>
    intro s hs hc
    have : s = [] := List.eq_nil_of_length_eq_zero (Nat.le_zero.mp hs)
    subst this
    exact absurd hc (by rw [countOccsL, countOccsF_nil]; simp)
  | succ n ih =>
    intro s hs hc
    by_cases hg : pat ≠ [] ∧ startsWithL pat s = true
    · rw [countOccsL_guard hg] at hc
      have ht0 : countOccsL pat (s.drop pat.length) = 0 := by omega
      obtain ⟨t, hst, hdrop, hlen, hp⟩ := drop_of_guard hg
      rw [hdrop] at ht0
      refine ⟨[], t, by simp [hst], ht0, ?_⟩
      rw [replaceAllL_guard hg, hdrop,
        replaceAllL_of_countOccs_zero pat repl t.length t le_rfl ht0]
      simp
    · cases s with
      | nil => exact absurd hc (by rw [countOccsL, countOccsF_nil]; simp)
      | cons c cs =>
        rw [countOccsL_cons hg] at hc
        obtain ⟨a, b, hab, hb0, hrep⟩ := ih cs (by simp at hs; omega) hc
        refine ⟨c :: a, b, by simp [hab], hb0, ?_⟩
        rw [replaceAllL_cons hg, hrep]
        simp

theorem countOccs_zero_of_not_mem (pat : List Char) (c : Char) (hc : c ∈ pat) :
    ∀ n (s : List Char), s.length ≤ n → c ∉ s → countOccsL pat s = 0 := by
  intro n
  induction n with
  | zero =>
    intro s hs _
    have : s = [] := List.eq_nil_of_length_eq_zero (Nat.le_zero.mp hs)
    subst this
    rfl
  | succ n ih =>
    intro s hs hmem
    by_cases hg : pat ≠ [] ∧ startsWithL pat s = true
    · obtain ⟨t, rfl, _, _, _⟩ := drop_of_guard hg
      exact absurd (List.mem_append.mpr (Or.inl hc)) hmem
    · cases s with
      | nil => rfl
      | cons d ds =>
        rw [countOccsL_cons hg]
        exact ih ds (by simp at hs; omega)
          (fun h => hmem (List.mem_cons_of_mem d h))

/-! ## Paths (POSIX, fixed working directory `/cwd`) -/

/-- `os.path.basename`: the segment after the last `/`. -/
def basename (p : String) : String :=
  ⟨(p.data.reverse.takeWhile (fun c => c ≠ '/')).reverse⟩

/-- `os.path.abspath` with the working directory fixed to `/cwd`. -/
def absPath (p : String) : String :=
  match p.data with
  | '/' :: _ => p
  | _ => "/cwd/" ++ p

/-- `os.path.join` for a relative second component. -/
def joinPath (a b : String) : String := a ++ "/" ++ b

/-- Python `s.rstrip('/')`. -/
def rstripSlash (s : String) : String :=
  ⟨(s.data.reverse.dropWhile (fun c => c = '/')).reverse⟩

/-- `os.path.splitext(s)[0]`: the name with its last extension removed. -/
def stripExt (s : String) : String :=
  if s.data.contains '.' then
    ⟨((s.data.reverse.dropWhile (fun c => c ≠ '.')).drop 1).reverse⟩
  else s

/-! ## JSON values and Python dict semantics -/

/-- A JSON value as far as the batch driver inspects one: a string, an
object, or `null` (Python `None`). -/
inductive JsonVal where
  | str (s : String)
  | obj (fields : List (String × JsonVal))
  | null

/-- First binding of a key in a JSON object's field list. -/
def jlookup : List (String × JsonVal) → String → Option JsonVal
  | [], _ => none
  | (a, v) :: t, k => if a = k then some v else jlookup t k

/-- Python truthiness of a JSON value (`""`, `{}` and `None` are falsy). -/
def JsonVal.truthy : JsonVal → Bool
  | .str s => !s.data.isEmpty
  | .obj fs => !fs.isEmpty
  | .null => false

/-- Python `x or y or ... or default`: the first truthy value wins
(`none` models a `dict.get` miss, i.e. Python `None`). -/
def orChain : List (Option JsonVal) → JsonVal → JsonVal
  | [], dflt => dflt
  | none :: rest, dflt => orChain rest dflt
  | some x :: rest, dflt => if x.truthy then x else orChain rest dflt

/-- Python subscription `x[k]` where `x` may be `None` or a non-dict:
raises `TypeError` unless `x` is a dict, `KeyError` if the key is absent. -/
def pyIndex : Option JsonVal → String → Except String JsonVal
  | none, _ => .error "TypeError: NoneType object is not subscriptable"
  | some (.obj fs), k =>
    match jlookup fs k with
    | some x => .ok x
    | none => .error ("KeyError: " ++ k)
  | some (.str _), _ => .error "TypeError: string indices must be integers"
  | some .null, _ => .error "TypeError: NoneType object is not subscriptable"

/-! ## Batch driver data model (`process_folder/folder_processor.py`) -/

/-- The two media kinds the batch driver distinguishes. -/
inductive MediaType where
  | video
  | image
deriving DecidableEq, Repr

/-- One entry of the batch result map (`BatchResultMap` in the design):
a success entry `{description, type, processing_time, transcript?, file_path}`
or an error entry `{error, type}`. -/
inductive BatchEntry where
  | ok (description : JsonVal) (mtype : MediaType) (processingTime : Nat)
      (transcript : Option JsonVal) (filePath : String)
  | err (msg : String) (mtype : MediaType)

/-- Whether an entry is a success entry. -/
def isOkEntry : BatchEntry → Bool
  | .ok .. => true
  | .err .. => false

/-- Outcome of one `subprocess.run` wrapper call (`process_video` /
`process_image`): the wrapper itself raised before its `try` block
(`os.makedirs` failure), returned an `{"error": ...}` dict, or returned
`{"success": True, "output_dir": ...}`. -/
inductive SubpRes where
  | raises (msg : String)
  | errDict (msg : String)
  | ok
deriving DecidableEq, Repr

/-- State of a file the driver may read: absent, present but not valid
JSON, or present with a parsed value. -/
inductive FileState where
  | absent
  | malformed
  | parsed (v : JsonVal)

/-- The external world one batch run interacts with. -/
structure PFWorld where
  /-- Directory listings: `none` models a directory that does not exist
  (POSIX `glob` then simply matches nothing). -/
  listing : String → Option (List String)
  /-- Outcome of invoking the external analyzer on one file
  (media type, absolute path, per-item output directory or `None`). -/
  subproc : MediaType → String → Option String → SubpRes
  /-- `tempfile.mkdtemp()` result used when no output directory is given. -/
  tempDir : String → String
  /-- Per-item elapsed wall-clock time, keyed by absolute path. -/
  runTime : String → Nat
  /-- Contents of the filesystem at JSON-artifact paths. -/
  file : String → FileState

/-- `os.path.exists` for artifact paths. -/
def fexists (w : PFWorld) (p : String) : Bool :=
  match w.file p with
  | .absent => false
  | _ => true

/-- POSIX `fnmatch` for the only pattern shape the driver uses, `*.EXT`:
the name must not start with a dot and must end with the literal suffix. -/
def globMatch (pat name : String) : Bool :=
  match pat.data with
  | [] => false
  | _ :: sfx =>
    match name.data with
    | [] => false
    | c :: _ => decide (c ≠ '.') && startsWithL sfx.reverse name.data.reverse

/-- `glob(os.path.join(dir, pat))`: matching names of the directory's
listing, in listing order, as `dir/name` paths. -/
def globDir (w : PFWorld) (dir : String) (pat : String) : List String :=
  (((w.listing dir).getD []).filter (fun n => globMatch pat n)).map
    (fun n => joinPath dir n)

/-- `self.video_extensions` (source line 26). -/
def video_extensions : List String :=
  ["*.mp4", "*.avi", "*.mov", "*.mkv", "*.wmv", "*.flv", "*.webm", "*.m4v"]

/-- `self.image_extensions` (source line 27). -/
def image_extensions : List String :=
  ["*.jpg", "*.jpeg", "*.png", "*.gif", "*.webp", "*.bmp"]

/-- `FolderProcessor.find_videos`: one glob per extension pattern, results
concatenated in pattern order.  The uppercase-variant globs of the source
are commented out there and hence absent here. -/
def find_videos (w : PFWorld) (folder : String) : List String :=
  video_extensions.flatMap (fun pat => globDir w (rstripSlash folder) pat)

/-- `FolderProcessor.find_images`: same shape as `find_videos` over the
image extension list (uppercase variants likewise commented out). -/
def find_images (w : PFWorld) (folder : String) : List String :=
  image_extensions.flatMap (fun pat => globDir w (rstripSlash folder) pat)

/-! ## Insertion-ordered string-keyed maps (Python `dict` semantics) -/

/-- Python `d[k]` read: first (unique) binding of `k`. -/
def alookup {β : Type} : List (String × β) → String → Option β
  | [], _ => none
  | (a, b) :: t, k => if a = k then some b else alookup t k

/-- Python `d[k] = v`: update in place keeping the key's position, else
append at the end (insertion order). -/
def dictSet {β : Type} (m : List (String × β)) (k : String) (v : β) :
    List (String × β) :=
  if k ∈ m.map Prod.fst then
    m.map (fun p => if p.1 = k then (k, v) else p)
  else m ++ [(k, v)]

/-- The keys of a map, in insertion order. -/
def keysOf {β : Type} (m : List (String × β)) : List String := m.map Prod.fst

/-! ## Per-item processing (`FolderProcessor.process_folder` loop body) -/

/-- Directory-name prefix of the per-item output directory. -/
def typeTag : MediaType → String
  | .video => "video_"
  | .image => "image_"

/-- Name of the JSON artifact the driver looks for inside the per-item
output directory. -/
def expectedArtifact : MediaType → String
  | .video => "analysis.json"
  | .image => "image_analysis.json"

/-- Video description extraction (source lines 221–224): prioritized key
list, first truthy value wins, string default.  Raises `AttributeError`
when the parsed artifact is not a JSON object. -/
def extractVideoDesc : JsonVal → Except String JsonVal
  | .obj fs =>
    .ok (orChain
      [jlookup fs "final_description", jlookup fs "video_description",
        jlookup fs "description"]
      (.str "No description available"))
  | _ => .error "AttributeError: get"

/-- Video transcript extraction (source line 225):
`analysis_data.get("transcript")["text"] or "No transcript available"`.
The subscription raises when the `transcript` key is absent or its value
is not an object with a `text` key. -/
def extractTranscript : JsonVal → Except String JsonVal
  | .obj fs => do
    let t ← pyIndex (jlookup fs "transcript") "text"
    pure (if t.truthy then t else .str "No transcript available")
  | _ => .error "AttributeError: get"

/-- Image description extraction (source lines 277–279):
`analysis_data.get('analysis', {}).get('description') or
analysis_data.get('description') or 'No description available'`. -/
def extractImageDesc : JsonVal → Except String JsonVal
  | .obj fs =>
    match (jlookup fs "analysis").getD (.obj []) with
    | .obj afs =>
      .ok (orChain [jlookup afs "description", jlookup fs "description"]
        (.str "No description available"))
    | _ => .error "AttributeError: get"
  | _ => .error "AttributeError: get"

/-- The description that reaches the result map: `description["response"]`
(source line 228 for video, line 280 for image). -/
def respOf (d : JsonVal) : Except String JsonVal := pyIndex (some d) "response"

/-- Branch dispatch for description extraction. -/
def descStage (t : MediaType) (v : JsonVal) : Except String JsonVal :=
  match t with
  | .video => extractVideoDesc v
  | .image => extractImageDesc v

/-- Branch dispatch for transcript extraction (image entries carry none). -/
def transcriptStage (t : MediaType) (v : JsonVal) :
    Except String (Option JsonVal) :=
  match t with
  | .video => (extractTranscript v).map some
  | .image => .ok none

/-- `save_results` up to its disk write: `os.makedirs(output_dir)` raises
`TypeError` when the directory argument is `None` (source line 300); the
write itself is modelled in `stepItem`. -/
def saveOutcome (outputDir : Option String) : Except String Unit :=
  match outputDir with
  | none => .error "TypeError: join argument must be str, not NoneType"
  | some _ => .ok ()

/-- Whether the operator-console preview (`description[:100] + "..." if
len(description) > 100 else description`) raises: slicing a dict raises
`TypeError` (only evaluated when it has more than 100 keys), `len(None)`
raises; strings never raise. -/
def previewRaises : JsonVal → Bool
  | .str _ => false
  | .obj fs => decide (fs.length > 100)
  | .null => true

/-- The value the preview is computed from: the extracted description for
video (line 234), the stored `response` value for image (line 289). -/
def previewStage (t : MediaType) (d r : JsonVal) : Bool :=
  match t with
  | .video => previewRaises d
  | .image => previewRaises r

/-- One iteration of the `process_folder` loop for one file, following the
source order: subprocess call, artifact location, JSON parse, description
and transcript extraction, `response` subscription, map entry, checkpoint
save, console preview.  Every raise inside the per-item `try` is caught by
the handler, which (over)writes an error entry for the same filename.

Returns the entry left in the result map for this file, and — when the
checkpoint save ran — the success entry it wrote to disk. -/
def analyzeOne (w : PFWorld) (batchDir : Option String) (t : MediaType)
    (path : String) : BatchEntry × Option BatchEntry :=
  let clean := basename path
  let abs := absPath path
  let mdir := batchDir.map (fun d => joinPath d (typeTag t ++ stripExt clean))
  match w.subproc t abs mdir with
  | .raises m => (.err m t, none)
  | .errDict m => (.err m t, none)
  | .ok =>
    let od := mdir.getD (w.tempDir abs)
    let expected := joinPath od (expectedArtifact t)
    let jsonPath :=
      if fexists w expected then Except.ok expected
      else
        match t with
        | .video =>
          match globDir w "output" "*.json" with
          | [] => Except.error "No JSON output found"
          | p :: _ => Except.ok p
        | .image =>
          if fexists w (joinPath "output" (expectedArtifact .image)) then
            Except.ok (joinPath "output" (expectedArtifact .image))
          else Except.error "No JSON output found"
    match jsonPath with
    | .error m => (.err m t, none)
    | .ok jp =>
      match w.file jp with
      | .absent => (.err "FileNotFoundError" t, none)
      | .malformed => (.err "JSONDecodeError" t, none)
      | .parsed v =>
        match descStage t v with
        | .error m => (.err m t, none)
        | .ok d =>
          match transcriptStage t v with
          | .error m => (.err m t, none)
          | .ok tr =>
            match respOf d with
            | .error m => (.err m t, none)
            | .ok r =>
              let e := BatchEntry.ok r t (w.runTime abs) tr abs
              match saveOutcome batchDir with
              | .error m => (.err m t, none)
              | .ok _ =>
                if previewStage t d r then
                  (.err "TypeError: unhashable type" t, some e)
                else (e, some e)

/-- Batch state: the in-memory result map and the contents of the on-disk
`media_descriptions.json` artifact (`none` while never written). -/
abbrev PFState := List (String × BatchEntry) × Option (List (String × BatchEntry))

/-- One loop iteration: record the item's final entry in the map; when the
item reached its checkpoint save, rewrite the artifact in full with the
map as of that save (the success entry, before any later overwrite). -/
def stepItem (w : PFWorld) (dir : Option String) (st : PFState)
    (it : MediaType × String) : PFState :=
  let r := analyzeOne w dir it.1 it.2
  let k := basename it.2
  (dictSet st.1 k r.1,
    match r.2 with
    | some se => some (dictSet st.1 k se)
    | none => st.2)

/-- The loop over a queue of tagged files. -/
def processItems (w : PFWorld) (dir : Option String) (init : PFState)
    (items : List (MediaType × String)) : PFState :=
  items.foldl (stepItem w dir) init

/-- Discovery plus the fixed processing order: every video before every
image, each group in glob-enumeration order. -/
def mediaQueue (w : PFWorld) (folder : String) : List (MediaType × String) :=
  (find_videos w folder).map (fun p => (MediaType.video, p)) ++
    (find_images w folder).map (fun p => (MediaType.image, p))

/-- `FolderProcessor.process_folder`: the returned result map.  (The
`total_files == 0` early return yields `{}`, which coincides with the fold
over the empty queue.) -/
def process_folder (w : PFWorld) (folder : String) (outputDir : Option String) :
    List (String × BatchEntry) :=
  (processItems w outputDir ([], none) (mediaQueue w folder)).1

/-! ## Single-item analyzer (`image_analyzer/core.py`, class `ImageAnalyzer`) -/

/-- Environment of one `ImageAnalyzer` instance: filesystem predicates,
the configuration's default-client entry, the resolved clients' `generate`
capability, and the three candidate prompt-template files. -/
structure IAEnv where
  /-- `os.path.exists`. -/
  fsExists : String → Bool
  /-- `os.path.getsize`. -/
  getsize : String → Nat
  /-- `config.get('clients', {}).get('default', ...)`; `none` models an
  absent `default` key (falls back to `'ollama'`). -/
  configDefault : Option String
  /-- `client.generate(prompt, image_path=...)`, keyed by client name and
  current model; may raise. -/
  generate : String → String → String → String → Except String String
  /-- Content of `prompts/image.txt` if it exists. -/
  tmpl0 : Option String
  /-- Content of `../prompts/image.txt` if it exists. -/
  tmpl1 : Option String
  /-- Content of `../../prompts/image.txt` if it exists. -/
  tmpl2 : Option String

/-- Python truthiness of an optional string argument (`None` and `""` are
falsy, as in `if not client_name:` / `if custom_prompt:` / `if model:`). -/
def truthyOS : Option String → Bool
  | none => false
  | some s => !s.data.isEmpty

/-- The `analysis` block of a success record. -/
structure AnalysisBlock where
  client : String
  model : String
  prompt_used : String
  description : String

/-- The `metadata` block: the error branch carries only
`analysis_successful`. -/
structure RecMeta where
  file_size : Option Nat
  mime_type : Option String
  analysis_successful : Bool

/-- The `AnalysisRecord` dictionary `analyze_image` returns, with the
optional fields of both branches explicit. -/
structure PyRecord where
  image_path : String
  image_filename : String
  analysis : Option AnalysisBlock
  error : Option String
  metadata : RecMeta

/-- The fixed extension → MIME lookup table (source lines 91–98). -/
def mime_types : List (String × String) :=
  [(".jpg", "image/jpeg"), (".jpeg", "image/jpeg"), (".png", "image/png"),
    (".gif", "image/gif"), (".webp", "image/webp"), (".bmp", "image/bmp")]

/-- ASCII lowercasing of a string. -/
def lowerStr (s : String) : String := ⟨s.data.map Char.toLower⟩

/-- `pathlib.Path(p).suffix`: the last dotted extension of the basename,
empty when there is no dot, the dot leads the name, or the dot is last. -/
def suffixOf (p : String) : String :=
  let b := basename p
  let r := b.data.reverse.takeWhile (fun c => c ≠ '.')
  if 0 < r.length ∧ r.length + 1 < b.data.length then ⟨'.' :: r.reverse⟩
  else ""

/-- `ImageAnalyzer._get_image_mime_type`: table lookup on the lowercased
suffix, `image/jpeg` for unknown extensions. -/
def getMimeType (p : String) : String :=
  (alookup mime_types (lowerStr (suffixOf p))).getD "image/jpeg"

/-- The built-in fallback prompt template (source lines 126–136). -/
def fallback_prompt : String :=
  "Analyze this image and provide a detailed description of what you see. \nInclude information about:\n- Objects and people in the image\n- Actions or activities taking place\n- Setting and environment\n- Colors, lighting, and composition\n- Any text or signs visible\n\n{prompt}\n\nProvide a clear, detailed description in paragraph form."

/-- The substitution marker. -/
def markerStr : String := "{prompt}"

/-- The template `_load_frame_prompt` substitutes into: the first existing
candidate file's content, except that a missing — or existing but empty —
template falls back to the built-in prompt (`if not frame_prompt:`). -/
def selectedTemplate (env : IAEnv) : String :=
  match env.tmpl0 <|> env.tmpl1 <|> env.tmpl2 with
  | some s => if s.data.isEmpty then fallback_prompt else s
  | none => fallback_prompt

/-- The text substituted for the marker: `"I want to know: " + custom`
when the custom prompt is truthy, the empty string otherwise. -/
def injectionOf (customPrompt : Option String) : String :=
  if truthyOS customPrompt then "I want to know: " ++ customPrompt.getD ""
  else ""

/-- String-level `str.replace`. -/
def replaceAllS (pat repl s : String) : String :=
  ⟨replaceAllL pat.data repl.data s.data⟩

/-- `ImageAnalyzer._load_frame_prompt`. -/
def load_frame_prompt (env : IAEnv) (customPrompt : Option String) : String :=
  replaceAllS markerStr (injectionOf customPrompt) (selectedTemplate env)

/-- The error-branch record built by the `except` handler of
`analyze_image` (source lines 226–233). -/
def errRecord (env : IAEnv) (p : String) (msg : String) : PyRecord :=
  { image_path := if env.fsExists p then absPath p else p
    image_filename := basename p
    analysis := none
    error := some msg
    metadata := ⟨none, none, false⟩ }

/-- `ImageAnalyzer.analyze_image`.  The clients registry is the mutable
name → current-model map; a model override mutates it before the
`generate` call, and the mutation survives even when `generate` raises
(the handler does not roll it back). -/
def analyze_image (env : IAEnv) (clients : List (String × String))
    (image_path : String) (client_name modelArg custom_prompt : Option String) :
    PyRecord × List (String × String) :=
  if ¬ env.fsExists image_path then
    (errRecord env image_path ("Image file not found: " ++ image_path), clients)
  else
    let name :=
      if truthyOS client_name then client_name.getD ""
      else env.configDefault.getD "ollama"
    match alookup clients name with
    | none =>
      (errRecord env image_path ("Client " ++ name ++ " not configured"),
        clients)
    | some curModel =>
      let clients' :=
        if truthyOS modelArg then dictSet clients name (modelArg.getD "")
        else clients
      let effModel := if truthyOS modelArg then modelArg.getD "" else curModel
      let mime := getMimeType image_path
      let prompt := load_frame_prompt env custom_prompt
      match env.generate name effModel prompt image_path with
      | .error e => (errRecord env image_path e, clients')
      | .ok res =>
        ({ image_path := absPath image_path
           image_filename := basename image_path
           analysis := some ⟨name, effModel, prompt, res⟩
           error := none
           metadata := ⟨some (env.getsize image_path), some mime, true⟩ },
          clients')

/-! ## Map lemmas -/

theorem alookup_map_other {β : Type} {k k' : String} {v : β} (hne : k' ≠ k) :
    ∀ m : List (String × β),
      alookup (m.map (fun p => if p.1 = k then (k, v) else p)) k'
        = alookup m k' := by
  intro m
  induction m with
  | nil => rfl
  | cons p t ih =>
    obtain ⟨a, b⟩ := p
    simp only [List.map_cons]
    by_cases ha : a = k
    · subst ha
      rw [if_pos rfl]
      simp only [alookup]
      rw [if_neg (fun h : a = k' => hne h.symm),
        if_neg (fun h : a = k' => hne h.symm), ih]
    · rw [if_neg ha]
      simp only [alookup, ih]

theorem alookup_map_self {β : Type} {k : String} {v : β} :
    ∀ m : List (String × β), k ∈ keysOf m →
      alookup (m.map (fun p => if p.1 = k then (k, v) else p)) k = some v := by
  intro m
  induction m with
  | nil => intro h; simp [keysOf] at h
  | cons p t ih =>
    obtain ⟨a, b⟩ := p
    intro hmem
    simp only [List.map_cons]
    by_cases ha : a = k
    · subst ha
      rw [if_pos rfl]
      simp [alookup]
    · rw [if_neg ha]
      simp only [alookup]
      rw [if_neg ha]
      apply ih
      simp only [keysOf, List.map_cons, List.mem_cons] at hmem
      rcases hmem with h | h
      · exact absurd h.symm ha
      · exact h

theorem alookup_append_single {β : Type} (k k' : String) (v : β) :
    ∀ m : List (String × β), k ∉ m.map Prod.fst →
      alookup (m ++ [(k, v)]) k' = if k' = k then some v else alookup m k' := by
  intro m
  induction m with
  | nil =>
    intro _
    simp only [List.nil_append, alookup]
    by_cases hk : k' = k
    · subst hk
      rw [if_pos rfl]
    · rw [if_neg (fun h : k = k' => hk h.symm), if_neg hk]
  | cons p t ih =>
    intro hm
    obtain ⟨a, b⟩ := p
    have hm' : k ∉ t.map Prod.fst := fun h => hm (by simp [h])
    have hak : a ≠ k := fun h => hm (by simp [h])
    simp only [List.cons_append, alookup]
    by_cases hak' : a = k'
    · rw [if_pos hak', if_pos hak',
        if_neg (fun h : k' = k => hak (hak'.trans h))]
    · rw [if_neg hak', if_neg hak']
      exact ih hm'

theorem alookup_dictSet {β : Type} (m : List (String × β)) (k k' : String)
    (v : β) :
    alookup (dictSet m k v) k' = if k' = k then some v else alookup m k' := by
  rw [dictSet]
  by_cases hm : k ∈ m.map Prod.fst
  · rw [if_pos hm]
    by_cases hk : k' = k
    · subst hk
      rw [if_pos rfl]
      exact alookup_map_self m hm
    · rw [if_neg hk]
      exact alookup_map_other hk m
  · rw [if_neg hm]
    exact alookup_append_single k k' v m hm

theorem keysOf_dictSet {β : Type} (m : List (String × β)) (k : String) (v : β) :
    keysOf (dictSet m k v)
      = if k ∈ keysOf m then keysOf m else keysOf m ++ [k] := by
  simp only [keysOf, dictSet]
  by_cases hm : k ∈ m.map Prod.fst
  · rw [if_pos hm, if_pos hm, List.map_map]
    apply List.map_congr_left
    intro p _
    simp only [Function.comp]
    by_cases hp : p.1 = k
    · rw [if_pos hp]
      exact hp.symm
    · rw [if_neg hp]
  · rw [if_neg hm, if_neg hm, List.map_append]
    rfl

theorem mem_dictSet {β : Type} {m : List (String × β)} {k : String} {v : β}
    {p : String × β} (hp : p ∈ dictSet m k v) : p ∈ m ∨ p = (k, v) := by
  rw [dictSet] at hp
  by_cases hm : k ∈ m.map Prod.fst
  · rw [if_pos hm] at hp
    obtain ⟨q, hq, hfq⟩ := List.mem_map.mp hp
    by_cases hqk : q.1 = k
    · rw [if_pos hqk] at hfq
      exact Or.inr hfq.symm
    · rw [if_neg hqk] at hfq
      exact Or.inl (hfq ▸ hq)
  · rw [if_neg hm] at hp
    rcases List.mem_append.mp hp with h | h
    · exact Or.inl h
    · exact Or.inr (List.mem_singleton.mp h)

/-! ## Behaviour of the batch fold -/

theorem stepItem_fst (w : PFWorld) (dir : Option String) (st : PFState)
    (it : MediaType × String) :
    (stepItem w dir st it).1
      = dictSet st.1 (basename it.2) (analyzeOne w dir it.1 it.2).1 := rfl

theorem processItems_cons (w : PFWorld) (dir : Option String) (st : PFState)
    (it : MediaType × String) (rest : List (MediaType × String)) :
    processItems w dir st (it :: rest)
      = processItems w dir (stepItem w dir st it) rest := rfl

/-- Keys, lookups and preservation across the whole batch loop, given
that all basenames of the queue are distinct and fresh. -/
theorem processItems_spec (w : PFWorld) (dir : Option String) :
    ∀ (items : List (MediaType × String)) (st : PFState),
      (keysOf st.1 ++ items.map (fun it => basename it.2)).Nodup →
      keysOf (processItems w dir st items).1
          = keysOf st.1 ++ items.map (fun it => basename it.2)
        ∧ (∀ k, k ∈ keysOf st.1 →
            alookup (processItems w dir st items).1 k = alookup st.1 k)
        ∧ ∀ it ∈ items,
            alookup (processItems w dir st items).1 (basename it.2)
              = some (analyzeOne w dir it.1 it.2).1 := by
  intro items
  induction items with
  | nil =>
    intro st _
    exact ⟨by simp [processItems], fun k _ => rfl, fun it h => absurd h (by simp)⟩
  | cons it rest ih =>
    intro st hnd
    have hnd1 : (keysOf st.1
        ++ basename it.2 :: rest.map (fun jt => basename jt.2)).Nodup := by
      simpa using hnd
    have hk0fresh : basename it.2 ∉ keysOf st.1 := by
      intro hmem
      exact (List.nodup_append.mp hnd1).2.2 hmem (List.mem_cons_self _ _)
    have hkeys1 : keysOf (stepItem w dir st it).1
        = keysOf st.1 ++ [basename it.2] := by
      rw [stepItem_fst, keysOf_dictSet, if_neg hk0fresh]
    have hnd' : (keysOf (stepItem w dir st it).1
        ++ rest.map (fun jt => basename jt.2)).Nodup := by
      rw [hkeys1, List.append_assoc]
      simpa using hnd1
    obtain ⟨ihkeys, ihpres, ihitems⟩ := ih (stepItem w dir st it) hnd'
    rw [processItems_cons]
    refine ⟨?_, ?_, ?_⟩
    · rw [ihkeys, hkeys1, List.append_assoc]
      simp
    · intro k hk
      have hk' : k ∈ keysOf (stepItem w dir st it).1 := by
        rw [hkeys1]; exact List.mem_append.mpr (Or.inl hk)
      rw [ihpres k hk', stepItem_fst, alookup_dictSet]
      rw [if_neg (fun h : k = basename it.2 => hk0fresh (h ▸ hk))]
    · intro jt hjt
      rcases List.mem_cons.mp hjt with heq | hjt'
      · subst heq
        have hk' : basename jt.2 ∈ keysOf (stepItem w dir st jt).1 := by
          rw [hkeys1]; simp
        rw [ihpres (basename jt.2) hk', stepItem_fst, alookup_dictSet,
          if_pos rfl]
      · exact ihitems jt hjt'

theorem length_eq_keysOf_length {β : Type} (m : List (String × β)) :
    m.length = (keysOf m).length := by
  rw [keysOf, List.length_map]

theorem length_filter_split {α : Type} (l : List α) (p : α → Bool) :
    l.length = (l.filter p).length + (l.filter (fun a => !(p a))).length := by
  induction l with
  | nil => rfl
  | cons a t ih =>
    cases hpa : p a <;>
      simp [List.filter_cons, hpa, List.length_cons, ih] <;> omega

/-- With no batch output directory, no per-item flow can end in a success
entry: every success path runs the checkpoint save, whose
`os.makedirs(None)` raises inside the per-item `try`, and the handler
overwrites the entry with an error. -/
theorem analyzeOne_none_not_ok (w : PFWorld) (t : MediaType) (path : String) :
    isOkEntry (analyzeOne w none t path).1 = false := by
  simp only [analyzeOne, saveOutcome]
  repeat' split
  all_goals rfl

theorem processItems_none_all_err (w : PFWorld) :
    ∀ (items : List (MediaType × String)) (st : PFState),
      (∀ p ∈ st.1, isOkEntry p.2 = false) →
      ∀ p ∈ (processItems w none st items).1, isOkEntry p.2 = false := by
  intro items
  induction items with
  | nil =>
    intro st h
    simpa [processItems] using h
  | cons it rest ih =>
    intro st hst
    rw [processItems_cons]
    apply ih
    intro p hp
    rw [stepItem_fst] at hp
    rcases mem_dictSet hp with h | h
    · exact hst p h
    · rw [h]
      exact analyzeOne_none_not_ok w it.1 it.2

theorem stepItem_snd_saved {w : PFWorld} {dir : Option String} {st : PFState}
    {it : MediaType × String} {se : BatchEntry}
    (h : (analyzeOne w dir it.1 it.2).2 = some se) :
    (stepItem w dir st it).2 = some (dictSet st.1 (basename it.2) se) := by
  simp [stepItem, h]

theorem keysOf_dictSet_congr {β : Type} (m : List (String × β)) (k : String)
    (a b : β) : keysOf (dictSet m k a) = keysOf (dictSet m k b) := by
  rw [keysOf_dictSet, keysOf_dictSet]

theorem processItems_diskOk (w : PFWorld) (dir : Option String) :
    ∀ (items : List (MediaType × String)) (st : PFState),
      (∀ it ∈ items, ((analyzeOne w dir it.1 it.2).2).isSome = true) →
      (∃ d, st.2 = some d ∧ keysOf d = keysOf st.1) →
      ∃ d, (processItems w dir st items).2 = some d ∧
        keysOf d = keysOf (processItems w dir st items).1 := by
  intro items
  induction items with
  | nil =>
    intro st _ h
    simpa [processItems] using h
  | cons it rest ih =>
    intro st hall hd
    rw [processItems_cons]
    apply ih _ (fun jt hjt => hall jt (List.mem_cons_of_mem _ hjt))
    obtain ⟨se, hse⟩ :=
      Option.isSome_iff_exists.mp (hall it (List.mem_cons_self _ _))
    refine ⟨dictSet st.1 (basename it.2) se, stepItem_snd_saved hse, ?_⟩
    rw [stepItem_fst]
    exact keysOf_dictSet_congr _ _ _ _

theorem processItems_disk_entries (w : PFWorld) (dir : Option String)
    (items : List (MediaType × String)) (st : PFState) (hne : items ≠ [])
    (hall : ∀ it ∈ items, ((analyzeOne w dir it.1 it.2).2).isSome = true) :
    ∃ d, (processItems w dir st items).2 = some d ∧
      keysOf d = keysOf (processItems w dir st items).1 := by
  cases items with
  | nil => exact absurd rfl hne
  | cons it rest =>
    rw [processItems_cons]
    apply processItems_diskOk w dir rest _
      (fun jt hjt => hall jt (List.mem_cons_of_mem _ hjt))
    obtain ⟨se, hse⟩ :=
      Option.isSome_iff_exists.mp (hall it (List.mem_cons_self _ _))
    refine ⟨dictSet st.1 (basename it.2) se, stepItem_snd_saved hse, ?_⟩
    rw [stepItem_fst]
    exact keysOf_dictSet_congr _ _ _ _

theorem dictSet_ne_nil {β : Type} (m : List (String × β)) (k : String) (v : β) :
    dictSet m k v ≠ [] := by
  rw [dictSet]
  by_cases hm : k ∈ m.map Prod.fst
  · rw [if_pos hm]
    intro h
    rw [List.map_eq_nil_iff.mp h] at hm
    simp at hm
  · rw [if_neg hm]
    simp

theorem processItems_fst_ne_nil (w : PFWorld) (dir : Option String) :
    ∀ (items : List (MediaType × String)) (st : PFState), st.1 ≠ [] →
      (processItems w dir st items).1 ≠ [] := by
  intro items
  induction items with
  | nil =>
    intro st h
    simpa [processItems] using h
  | cons it rest ih =>
    intro st _
    rw [processItems_cons]
    exact ih _ (by rw [stepItem_fst]; exact dictSet_ne_nil _ _ _)

theorem mediaQueue_names (w : PFWorld) (folder : String) :
    (mediaQueue w folder).map (fun it => basename it.2)
      = (find_videos w folder).map basename
        ++ (find_images w folder).map basename := by
  rw [mediaQueue, List.map_append, List.map_map, List.map_map]
  rfl

/-! ## Concrete worlds used to instantiate hypotheses -/

/-- A folder `f` with one video that fails at the subprocess stage and one
image that succeeds end to end (artifact parsed, `response` string). -/
def wDemo : PFWorld :=
  { listing := fun d => if d = "f" then some ["v.mp4", "a.jpg"] else none
    subproc := fun t a _ =>
      match t with
      | .video => .errDict ("Return code 1: " ++ a)
      | .image => .ok
    tempDir := fun _ => "/tmp/t0"
    runTime := fun _ => 7
    file := fun p =>
      if p = "o/image_a/image_analysis.json"
          ∨ p = "/tmp/t0/image_analysis.json" then
        .parsed (.obj [("description", .obj [("response", .str "hi")])])
      else .absent }

/-- A folder `f` with a single image that succeeds end to end. -/
def wOk : PFWorld :=
  { listing := fun d => if d = "f" then some ["a.jpg"] else none
    subproc := fun _ _ _ => .ok
    tempDir := fun _ => "/tmp/t0"
    runTime := fun _ => 7
    file := fun p =>
      if p = "o/image_a/image_analysis.json" then
        .parsed (.obj [("description", .obj [("response", .str "hi")])])
      else .absent }

/-- A folder `f` whose one image analysis artifact stores the description
as a plain string. -/
def wX : PFWorld :=
  { listing := fun d => if d = "f" then some ["a.jpg"] else none
    subproc := fun _ _ _ => .ok
    tempDir := fun _ => "/tmp/t0"
    runTime := fun _ => 3
    file := fun p =>
      if p = "o/image_a/image_analysis.json" then
        .parsed (.obj [("description", .str "hello")])
      else .absent }

/-- A folder `f` containing only the uppercase-named file `PHOTO.JPG`. -/
def wUpper : PFWorld :=
  { listing := fun d => if d = "f" then some ["PHOTO.JPG"] else none
    subproc := fun _ _ _ => .ok
    tempDir := fun _ => "/tmp/t0"
    runTime := fun _ => 0
    file := fun _ => .absent }

/-- An analyzer environment whose first template candidate exists with the
small one-marker content `ab{prompt}cd`. -/
def envT : IAEnv :=
  { fsExists := fun _ => true
    getsize := fun _ => 0
    configDefault := none
    generate := fun _ _ _ _ => .ok "r"
    tmpl0 := some "ab{prompt}cd"
    tmpl1 := none
    tmpl2 := none }

/-- The opening-brace character, written via its code point. -/
def lbrace : Char := '\x7b'

/-! ## Claims -/

/-- **C1.**  The single-item analyze operation is total: for every
environment (hence for a nonexistent path, an unconfigured client name, a
client whose `generate` raises), `analyze_image` returns an
`AnalysisRecord` with a success or an error branch populated; in this
embedding every raise site feeds the `except` handler, which itself
cannot raise, so no exception propagates to the caller. -/
theorem C1_analyze_image_total (env : IAEnv) (clients : List (String × String))
    (path : String) (clientName modelArg customPrompt : Option String) :
    ((analyze_image env clients path clientName modelArg customPrompt).1.analysis.isSome
        ∧ (analyze_image env clients path clientName modelArg customPrompt).1.error = none)
      ∨ ((analyze_image env clients path clientName modelArg customPrompt).1.analysis = none
        ∧ (analyze_image env clients path clientName modelArg customPrompt).1.error.isSome) := by
  simp only [analyze_image]
  repeat' split
  all_goals first
    | exact Or.inr ⟨rfl, rfl⟩
    | exact Or.inl ⟨rfl, rfl⟩

/-- **C2.**  Branch invariant of every record `analyze_image` returns:
exactly one of the `analysis` and `error` fields is present, and
`metadata.analysis_successful` is true exactly when the `analysis` branch
is the one present. -/
theorem C2_record_branch_invariant (env : IAEnv)
    (clients : List (String × String)) (path : String)
    (clientName modelArg customPrompt : Option String) :
    (((analyze_image env clients path clientName modelArg customPrompt).1.analysis.isSome
        ∧ (analyze_image env clients path clientName modelArg customPrompt).1.error = none)
      ∨ ((analyze_image env clients path clientName modelArg customPrompt).1.analysis = none
        ∧ (analyze_image env clients path clientName modelArg customPrompt).1.error.isSome))
    ∧ (analyze_image env clients path clientName modelArg customPrompt).1.metadata.analysis_successful
      = (analyze_image env clients path clientName modelArg customPrompt).1.analysis.isSome := by
  simp only [analyze_image]
  repeat' split
  all_goals first
    | exact ⟨Or.inr ⟨rfl, rfl⟩, rfl⟩
    | exact ⟨Or.inl ⟨rfl, rfl⟩, rfl⟩

/-- **C10.**  When `process_folder` is called without a batch output
directory, the returned map contains no success entries: every item that
reaches the success path still fails at the per-item checkpoint
(`save_results(results, None)` raises in `os.makedirs(None)`) and the
handler overwrites the entry with an error. -/
theorem C10_no_success_without_output_dir (w : PFWorld) (folder : String)
    (p : String × BatchEntry) (hp : p ∈ process_folder w folder none) :
    isOkEntry p.2 = false :=
  processItems_none_all_err w (mediaQueue w folder) ([], none)
    (fun _ h => absurd h (by simp)) p hp

/-- Witness for C10 at a concrete world: the image item of `wDemo`
parses its artifact successfully, yet with no output directory its
recorded entry is an error entry. -/
theorem C10_witness :
    isOkEntry (("a.jpg",
      BatchEntry.err "TypeError: join argument must be str, not NoneType"
        MediaType.image) : String × BatchEntry).2 = false :=
  C10_no_success_without_output_dir wDemo "f" _
    (by rw [show process_folder wDemo "f" none
          = [("v.mp4", BatchEntry.err "Return code 1: /cwd/f/v.mp4" .video),
             ("a.jpg", BatchEntry.err
               "TypeError: join argument must be str, not NoneType" .image)]
        from rfl]
        exact List.mem_cons_of_mem _ (List.mem_cons_self _ _))

/-- **C3.**  Batch per-item failure isolation: with the discovered
basenames distinct (always the case for one real directory listing), the
returned map has exactly one entry per discovered file — N success plus M
error entries as counted per item — and every discovered file's entry is
exactly its own per-item outcome, so no failure prevents a success from
being recorded or aborts the remaining queue. -/
theorem C3_batch_isolation (w : PFWorld) (folder : String) (dir : Option String)
    (hnd : ((mediaQueue w folder).map (fun it => basename it.2)).Nodup) :
    (process_folder w folder dir).length
      = ((mediaQueue w folder).filter
          (fun it => isOkEntry (analyzeOne w dir it.1 it.2).1)).length
        + ((mediaQueue w folder).filter
          (fun it => !(isOkEntry (analyzeOne w dir it.1 it.2).1))).length
    ∧ ∀ it ∈ mediaQueue w folder,
        alookup (process_folder w folder dir) (basename it.2)
          = some (analyzeOne w dir it.1 it.2).1 := by
  obtain ⟨hkeys, _, hitems⟩ :=
    processItems_spec w dir (mediaQueue w folder) ([], none)
      (by simpa [keysOf] using hnd)
  constructor
  · rw [process_folder, length_eq_keysOf_length, hkeys]
    simp only [keysOf, List.map_nil, List.nil_append, List.length_map]
    exact length_filter_split (mediaQueue w folder) _
  · exact hitems

/-- Witness for C3: in the world `wDemo` (one failing video, one
succeeding image) the result map has one entry per discovered file,
successes plus failures. -/
theorem C3_witness :
    (process_folder wDemo "f" (some "o")).length
      = ((mediaQueue wDemo "f").filter
          (fun it => isOkEntry (analyzeOne wDemo (some "o") it.1 it.2).1)).length
        + ((mediaQueue wDemo "f").filter
          (fun it => !(isOkEntry (analyzeOne wDemo (some "o") it.1 it.2).1))).length :=
  (C3_batch_isolation wDemo "f" (some "o") (by decide)).1

/-- **C7.**  Batch ordering: the insertion order of the result map is all
video entries first, then all image entries, each group in
glob-enumeration order. -/
theorem C7_batch_ordering (w : PFWorld) (folder : String) (dir : Option String)
    (hnd : ((mediaQueue w folder).map (fun it => basename it.2)).Nodup) :
    keysOf (process_folder w folder dir)
      = (find_videos w folder).map basename
        ++ (find_images w folder).map basename := by
  obtain ⟨hkeys, _, _⟩ :=
    processItems_spec w dir (mediaQueue w folder) ([], none)
      (by simpa [keysOf] using hnd)
  rw [process_folder, hkeys]
  simp only [keysOf, List.map_nil, List.nil_append]
  exact mediaQueue_names w folder

/-- Witness for C7 at the concrete world `wDemo`. -/
theorem C7_witness :
    keysOf (process_folder wDemo "f" (some "o"))
      = (find_videos wDemo "f").map basename
        ++ (find_images wDemo "f").map basename :=
  C7_batch_ordering wDemo "f" (some "o") (by decide)

/-- **C4, counterexample.**  The claim says the batch artifact is written
after *every* item; but after processing the first (failing) item of
`wDemo` the artifact was never written (`none`), not a one-entry map:
error-path items skip the checkpoint, which runs only on the success
path. -/
theorem C4_counterexample_checkpoint :
    (processItems wDemo (some "o") ([], none)
        ((mediaQueue wDemo "f").take 1)).2 = none
    ∧ (processItems wDemo (some "o") ([], none)
        ((mediaQueue wDemo "f").take 1)).1.length = 1 :=
  ⟨rfl, rfl⟩

/-- **C4, amended.**  The checkpoint save runs only on per-item success
(right after the success entry is appended); hence after K items *that
all reach their checkpoint* the on-disk artifact holds exactly K entries,
while a failing item leaves the artifact at the previous snapshot (see
the counterexample). -/
theorem C4_checkpoint_on_success (w : PFWorld) (folder : String)
    (dir : Option String) (K : Nat) (hK1 : 1 ≤ K)
    (hKle : K ≤ (mediaQueue w folder).length)
    (hsave : ∀ it ∈ (mediaQueue w folder).take K,
      ((analyzeOne w dir it.1 it.2).2).isSome = true)
    (hnd : (((mediaQueue w folder).take K).map
      (fun it => basename it.2)).Nodup) :
    ∃ d, (processItems w dir ([], none) ((mediaQueue w folder).take K)).2
        = some d
      ∧ d.length = K := by
  have hne : (mediaQueue w folder).take K ≠ [] := by
    intro h
    have hlen := congrArg List.length h
    rw [List.length_take, List.length_nil] at hlen
    omega
  obtain ⟨d, hd, hdk⟩ :=
    processItems_disk_entries w dir _ ([], none) hne hsave
  obtain ⟨hkeys, _, _⟩ :=
    processItems_spec w dir ((mediaQueue w folder).take K) ([], none)
      (by simpa [keysOf] using hnd)
  refine ⟨d, hd, ?_⟩
  rw [length_eq_keysOf_length, hdk, hkeys]
  simp only [keysOf, List.map_nil, List.nil_append, List.length_map,
    List.length_take]
  omega

/-- Witness for the amended C4: one fully succeeding item, K = 1, and the
artifact holds exactly one entry. -/
theorem C4_witness :
    ∃ d, (processItems wOk (some "o") ([], none)
        ((mediaQueue wOk "f").take 1)).2 = some d
      ∧ d.length = 1 :=
  C4_checkpoint_on_success wOk "f" (some "o") 1 (by decide) (by decide)
    (by decide) (by decide)

/-- **C9, counterexample.**  A nonexistent input folder is *not* fatal:
discovery globs over the missing directory match nothing and
`process_folder` returns the empty map — the same empty map the claim
reserves for an existing folder with no matching files. -/
theorem C9_counterexample_missing_folder :
    wUpper.listing (rstripSlash "g") = none
    ∧ process_folder wUpper "g" (some "o") = [] :=
  ⟨rfl, rfl⟩

/-- **C9, amended.**  `process_folder` has no batch-level failure at all:
it returns the empty map exactly when discovery finds zero matching
files, whether the folder is missing or merely has no matches. -/
theorem C9_empty_iff_no_discovery (w : PFWorld) (folder : String)
    (dir : Option String) :
    process_folder w folder dir = []
      ↔ find_videos w folder = [] ∧ find_images w folder = [] := by
  constructor
  · intro h
    by_contra hne
    have hq : mediaQueue w folder ≠ [] := by
      rw [mediaQueue]
      intro hq
      rcases List.append_eq_nil.mp hq with ⟨h1, h2⟩
      exact hne ⟨List.map_eq_nil_iff.mp h1, List.map_eq_nil_iff.mp h2⟩
    cases hqq : mediaQueue w folder with
    | nil => exact hq hqq
    | cons it rest =>
      have hnonnil : (processItems w dir ([], none) (it :: rest)).1 ≠ [] := by
        rw [processItems_cons]
        exact processItems_fst_ne_nil w dir rest _
          (by rw [stepItem_fst]; exact dictSet_ne_nil _ _ _)
      rw [process_folder, hqq] at h
      exact hnonnil h
  · rintro ⟨h1, h2⟩
    rw [process_folder, mediaQueue, h1, h2]
    rfl

/-- **C6, counterexample.**  The uppercase-variant globs are commented out
in the source: `PHOTO.JPG` sits in the folder listing yet is not
discovered. -/
theorem C6_counterexample_uppercase :
    find_images wUpper "f" = []
    ∧ "PHOTO.JPG" ∈ (wUpper.listing "f").getD [] :=
  ⟨rfl, by decide⟩

/-- **C6, amended.**  Discovery is exactly the non-recursive files of the
folder matching the fixed *lowercase* extension lists under POSIX glob
semantics (no uppercase variants, no leading-dot names). -/
theorem C6_discovery_lowercase (w : PFWorld) (folder : String) (p : String) :
    (p ∈ find_videos w folder
      ↔ ∃ pat ∈ video_extensions,
          ∃ name ∈ (w.listing (rstripSlash folder)).getD [],
            globMatch pat name = true
              ∧ p = joinPath (rstripSlash folder) name)
    ∧ (p ∈ find_images w folder
      ↔ ∃ pat ∈ image_extensions,
          ∃ name ∈ (w.listing (rstripSlash folder)).getD [],
            globMatch pat name = true
              ∧ p = joinPath (rstripSlash folder) name) := by
  constructor
  · simp only [find_videos, globDir, List.mem_flatMap, List.mem_map,
      List.mem_filter]
    constructor
    · rintro ⟨pat, hpat, name, ⟨hname, hmatch⟩, rfl⟩
      exact ⟨pat, hpat, name, hname, hmatch, rfl⟩
    · rintro ⟨pat, hpat, name, hname, hmatch, rfl⟩
      exact ⟨pat, hpat, name, ⟨hname, hmatch⟩, rfl⟩
  · simp only [find_images, globDir, List.mem_flatMap, List.mem_map,
      List.mem_filter]
    constructor
    · rintro ⟨pat, hpat, name, ⟨hname, hmatch⟩, rfl⟩
      exact ⟨pat, hpat, name, hname, hmatch, rfl⟩
    · rintro ⟨pat, hpat, name, hname, hmatch, rfl⟩
      exact ⟨pat, hpat, name, ⟨hname, hmatch⟩, rfl⟩

/-- **C5, counterexample.**  The artifact `{"description": "hello"}`
extracts the non-empty description `"hello"`, yet the recorded entry is
an error entry: the code stores `description["response"]`, and
subscripting the extracted string raises `TypeError` inside the per-item
`try`.  The entry is therefore *not* a success entry whose description
equals the extracted description, as the claim states. -/
theorem C5_counterexample_description :
    extractImageDesc (.obj [("description", .str "hello")])
        = .ok (.str "hello")
    ∧ (analyzeOne wX (some "o") .image "f/a.jpg").1
        = .err "TypeError: string indices must be integers" .image :=
  ⟨rfl, rfl⟩

/-- **C5, amended.**  On the success path the entry appended for a file is
`{description, type, processing_time, transcript?, file_path}` whose
description equals the `"response"` subfield of the value extracted by
the prioritized first-non-empty key list — not the extracted value
itself; when that subscription fails the item is recorded as an error
entry instead (see the counterexample). -/
theorem C5_success_entry_shape (w : PFWorld) (dir : Option String)
    (t : MediaType) (path : String) (v d r : JsonVal) (tro : Option JsonVal)
    (hsub : w.subproc t (absPath path)
        (dir.map (fun dd => joinPath dd (typeTag t ++ stripExt (basename path))))
      = .ok)
    (hfile : w.file (joinPath
        ((dir.map (fun dd =>
            joinPath dd (typeTag t ++ stripExt (basename path)))).getD
          (w.tempDir (absPath path)))
        (expectedArtifact t)) = .parsed v)
    (hd : descStage t v = .ok d)
    (htr : transcriptStage t v = .ok tro)
    (hr : respOf d = .ok r)
    (hdir : dir.isSome = true)
    (hprev : previewStage t d r = false) :
    (analyzeOne w dir t path).1
      = .ok r t (w.runTime (absPath path)) tro (absPath path) := by
  obtain ⟨dd, rfl⟩ := Option.isSome_iff_exists.mp hdir
  simp only [Option.map_some', Option.getD_some] at hsub hfile
  have hex : fexists w (joinPath
      (joinPath dd (typeTag t ++ stripExt (basename path)))
      (expectedArtifact t)) = true := by
    unfold fexists
    rw [hfile]
  simp only [analyzeOne, Option.map_some', Option.getD_some, hsub, hex,
    if_true, hfile, hd, htr, hr, saveOutcome, hprev, Bool.false_eq_true,
    if_false]

/-- Witness for the amended C5: the image item of `wOk` whose artifact is
`{"description": {"response": "hi"}}` is recorded as a success entry with
description `"hi"` — the `"response"` subfield of the extracted value. -/
theorem C5_witness :
    (analyzeOne wOk (some "o") .image "f/a.jpg").1
      = .ok (.str "hi") .image 7 none "/cwd/f/a.jpg" :=
  C5_success_entry_shape wOk (some "o") .image "f/a.jpg"
    (.obj [("description", .obj [("response", .str "hi")])])
    (.obj [("response", .str "hi")]) (.str "hi") none
    rfl rfl rfl rfl rfl rfl rfl

/-- **C8, counterexample.**  `str.replace` does not guard against the
substituted text reintroducing the marker: with the one-marker template
`ab{prompt}cd` and the custom question `{prompt}` itself, the built
prompt still contains one `{prompt}` occurrence — not zero, as the claim
states. -/
theorem C8_counterexample_marker :
    load_frame_prompt envT (some "{prompt}")
        = "abI want to know: {prompt}cd"
    ∧ countOccsL markerStr.data
        (load_frame_prompt envT (some "{prompt}")).data = 1 :=
  ⟨rfl, rfl⟩

/-- **C8, amended.**  Prompt building is deterministic (a pure function of
the template-file state and the question), and when the selected template
contains the marker exactly once, with its only `{` that of the marker,
and the question does not itself contain a `{`, the built prompt is the
template with that one occurrence replaced by the injection (empty for no
question, `"I want to know: " + q` otherwise) and no marker occurrence
remains. -/
theorem C8_prompt_substitution (env : IAEnv) (cp : Option String)
    (hq : ∀ s, cp = some s → lbrace ∉ s.data)
    (h1 : countOccsL markerStr.data (selectedTemplate env).data = 1)
    (h2 : (selectedTemplate env).data.count lbrace = 1) :
    load_frame_prompt env cp = load_frame_prompt env cp
    ∧ (∃ a b, (selectedTemplate env).data = a ++ markerStr.data ++ b
        ∧ (load_frame_prompt env cp).data
            = a ++ (injectionOf cp).data ++ b)
    ∧ countOccsL markerStr.data (load_frame_prompt env cp).data = 0 := by
  have hload : (load_frame_prompt env cp).data
      = replaceAllL markerStr.data (injectionOf cp).data
          (selectedTemplate env).data := rfl
  obtain ⟨a, b, hab, hb0, hrep⟩ :=
    countOccs_one_decomp markerStr.data (injectionOf cp).data
      (selectedTemplate env).data.length (selectedTemplate env).data le_rfl h1
  have hbm : lbrace ∈ markerStr.data := by decide
  have hcount := h2
  rw [hab, List.count_append, List.count_append] at hcount
  have hmk : markerStr.data.count lbrace = 1 := by decide
  rw [hmk] at hcount
  have ha0 : lbrace ∉ a := by
    rw [← List.count_eq_zero (a := lbrace) (l := a)]
    omega
  have hbn : lbrace ∉ b := by
    rw [← List.count_eq_zero (a := lbrace) (l := b)]
    omega
  have hinj : lbrace ∉ (injectionOf cp).data := by
    rw [injectionOf]
    cases cp with
    | none => simp [truthyOS]
    | some s =>
      by_cases hs : s.data.isEmpty
      · rw [if_neg (by simp [truthyOS, hs])]
        simp
      · rw [if_pos (by simp [truthyOS, hs])]
        intro hmem
        rw [Option.getD_some, String.data_append] at hmem
        rcases List.mem_append.mp hmem with h | h
        · exact absurd h (by decide)
        · exact hq s rfl h
  have hnomem : lbrace ∉ (load_frame_prompt env cp).data := by
    rw [hload, hrep]
    intro hmem
    rcases List.mem_append.mp hmem with h | h
    · rcases List.mem_append.mp h with h' | h'
      · exact ha0 h'
      · exact hinj h'
    · exact hbn h
  refine ⟨rfl, ⟨a, b, hab, by rw [hload, hrep]⟩, ?_⟩
  exact countOccs_zero_of_not_mem markerStr.data lbrace hbm
    (load_frame_prompt env cp).data.length _ le_rfl hnomem

/-- Witness for the amended C8: the one-marker template of `envT` and the
brace-free question `why` give a built prompt with zero marker
occurrences remaining. -/
theorem C8_witness :
    countOccsL markerStr.data (load_frame_prompt envT (some "why")).data
      = 0 :=
  (C8_prompt_substitution envT (some "why")
    (fun s h => by cases h; decide) (by rfl) (by rfl)).2.2

end FolderAnalyzer
